import Mathlib

/-!
Verification of the room-availability aggregation and day-fill scheduling
core of the UofG room booker (`src/index.ts`).

Embedding conventions:
* Every hour-of-day value and duration the program manipulates is a multiple
  of 0.5 hours, and JavaScript floats represent such values and their sums,
  differences, minima and comparisons exactly.  The embedding therefore uses
  integers in HALF-HOUR UNITS: a source value `h` (in hours) is represented
  by `2 * h : ℤ`.  So 9:00 is `18`, 22:00 is `44`, a 0.5-hour step is `1`,
  and the 3-hour maximum duration is `6`.  Constants the source states in
  hours are scaled accordingly; constants stated in milliseconds that are
  only ever compared against (scaled) hour values are scaled by the same
  factor 2, preserving every comparison.
* `Date` objects are modelled as integers (milliseconds since the epoch,
  timezone treated as UTC, not scaled).  `Date.setHours(0,0,0,0)` becomes
  `startOfDay`.  The system clock is passed explicitly as two parameters:
  `todayStart` (midnight of the current day in ms) and `nowHour` (the
  current hour, in half-hour units — `Date.getHours()` returns whole hours,
  so this is always even, but the model does not need that fact).
* Functions that `throw` return `Except String α`; in-place mutation of a
  caller's `Date` object is modelled by returning the final value of that
  date alongside the result.
* External collaborators (the HTTP availability query and the booking
  submission) are passed in as their settled outcomes
  (`Except String (List Room)` per slot, `Except String Unit` per
  submission).
-/

/-- `TimeInterval` data: `{from, to}` hour-of-day values (half-hour units).
The source also exposes a derived `duration` getter; schedule-builder object
literals additionally carry a `duration` data field whose value is always
`to - from`, so it is represented by `TimeInterval.duration` below. -/
structure TimeInterval where
  «from» : ℤ
  «to» : ℤ
deriving DecidableEq

/-- Derived `duration` getter of `TimeInterval`. -/
def TimeInterval.duration (t : TimeInterval) : ℤ :=
  t.«to» - t.«from»

/-- The `TimeInterval` constructor with its validation: throws when
`from >= to` or when a bound is outside `[0, 23]` hours (`[0, 46]` in
half-hour units). -/
def TimeInterval.mk? («from» «to» : ℤ) : Except String TimeInterval :=
  if «from» ≥ «to» then
    .error "\x27from\x27 time must be before \x27to\x27 time."
  else if «from» < 0 ∨ «from» > 46 ∨ «to» < 0 ∨ «to» > 46 then
    .error "Times must be between 0 and 23 inclusive."
  else
    .ok ⟨«from», «to»⟩

/-- `RoomSchedule`: a calendar date (ms since epoch) and the recorded
free-time intervals, in insertion order. -/
structure RoomSchedule where
  date : ℤ
  freeTimes : List TimeInterval
deriving DecidableEq

/-- `RoomSchedule.addFreeTime`: appends intervals to `freeTimes`. -/
def RoomSchedule.addFreeTime (s : RoomSchedule) (times : List TimeInterval) : RoomSchedule :=
  { s with freeTimes := s.freeTimes ++ times }

/-- One-argument `RoomSchedule.isFree(time)`:
`!!this.freeTimes.find((t) => time >= t.from && time <= t.to)`. -/
def RoomSchedule.isFree (s : RoomSchedule) (time : ℤ) : Bool :=
  (s.freeTimes.find? (fun t => decide (time ≥ t.«from») && decide (time ≤ t.«to»))).isSome

/-- Two-argument `RoomSchedule.isFree(from, to)`, i.e. the protected
`isFreeInterval`: a single stored interval must contain both endpoints
inclusively. -/
def RoomSchedule.isFreeInterval (s : RoomSchedule) («from» «to» : ℤ) : Bool :=
  (s.freeTimes.find? (fun t =>
    decide («from» ≥ t.«from») && decide («from» ≤ t.«to») &&
    decide («to» ≥ t.«from») && decide («to» ≤ t.«to»))).isSome

/-- `Room`: id, name, capacity, and an optional schedule (absent until the
schedule builder annotates the room). -/
structure Room where
  id : String
  name : String
  capacity : ℤ
  schedule : Option RoomSchedule := none
deriving DecidableEq

/-- `Room.isFree` delegates to the schedule and throws when the room has no
schedule.  (Only the two-argument form is exercised by the scheduler.) -/
def Room.isFree (r : Room) («from» «to» : ℤ) : Except String Bool :=
  match r.schedule with
  | none => .error "Room has no schedule."
  | some s => .ok (s.isFreeInterval «from» «to»)

/-- The date stored in a room's schedule, when the schedule is present
(`r.schedule.date.getTime()` guarded by the scheduler's precondition
checks). -/
def Room.scheduleDate? (r : Room) : Option ℤ :=
  r.schedule.map RoomSchedule.date

/-- `BookingTime`: `{date, startHour, endHour}` (hours in half-hour units). -/
structure BookingTime where
  date : ℤ
  startHour : ℤ
  endHour : ℤ
deriving DecidableEq

namespace UofGRoomBooker

/-- 3 hours, in half-hour units. -/
def MAX_BOOKING_DURATION_HOURS : ℤ := 6

/-- `MAX_BOOKING_DURATION_HOURS * 60 * 60 * 1000` — the source's
"3 hours in milliseconds", carrying the same factor-2 scaling as every
hour value it is compared against. -/
def MAX_BOOKING_DURATION : ℤ := MAX_BOOKING_DURATION_HOURS * 60 * 60 * 1000

/-- 7 days in milliseconds (dates are unscaled ms). -/
def MAX_BOOKING_ADVANCE_DAYS : ℤ := 7 * 24 * 60 * 60 * 1000

/-- 9:00, in half-hour units. -/
def MIN_BOOKING_HOUR : ℤ := 18

/-- 22:00, in half-hour units. -/
def MAX_BOOKING_HOUR : ℤ := 44

/-- 0.5 hours, in half-hour units. -/
def BOOKING_TIME_INTERVAL : ℤ := 1

def MIN_ATTENDEES : ℤ := 1

def MAX_ATTENDEES : ℤ := 7

def msPerDay : ℤ := 24 * 60 * 60 * 1000

/-- `date.setHours(0, 0, 0, 0)`: truncate a ms-since-epoch date to midnight. -/
def startOfDay (d : ℤ) : ℤ :=
  d.fdiv msPerDay * msPerDay

/-- `validateAttendees`: throws when the attendee count is outside `[1, 7]`. -/
def validateAttendees (attendees : ℤ) : Except String Unit :=
  if attendees < MIN_ATTENDEES ∨ attendees > MAX_ATTENDEES then
    .error "Capacity must be between $\x7bthis.MIN_ATTENDEES\x7d and $\x7bthis.MAX_ATTENDEES\x7d."
  else
    .ok ()

/-- The source's check that an hour value `h` equals `Math.floor(h)` or
exceeds it by exactly 0.5.  In half-hour units: `x` (representing `x / 2`
hours) equals `2 * ⌊x / 2⌋` or exceeds it by exactly 1.  Every integer is
even or odd, so on the half-hour-granular domain of the embedding this
condition is always satisfied; it is kept to preserve the source's shape. -/
def hourAligned (x : ℤ) : Prop :=
  x = 2 * x.fdiv 2 ∨ x - 2 * x.fdiv 2 = 1

instance (x : ℤ) : Decidable (hourAligned x) := by
  unfold hourAligned
  infer_instance

/-- `validateBookingTime`.  Returns the validation outcome together with the
final value of the caller's `date` object: the source mutates it in place via
`date.setHours(0,0,0,0)` after the hour-alignment check and before every
other check, so the caller observes the truncated date even when a later
check throws. -/
def validateBookingTime (todayStart nowHour : ℤ) (time : BookingTime) :
    Except String Unit × ℤ :=
  if ¬hourAligned time.startHour ∨ ¬hourAligned time.endHour then
    (.error "Start and end hours must integers or floats with .5 as the decimal part (half hour intervals).",
     time.date)
  else
    let date := startOfDay time.date
    if date < todayStart ∨ (date = todayStart ∧ nowHour ≥ time.startHour) then
      (.error "Date cannot be in the past.", date)
    else if date > todayStart + MAX_BOOKING_ADVANCE_DAYS then
      (.error "Date cannot be more than 7 days in the future.", date)
    else
      let duration := time.endHour - time.startHour
      if duration ≤ 0 then
        (.error "Start time must be before end time.", date)
      else if duration > MAX_BOOKING_DURATION then
        (.error "Room cannot be booked for more than 3 hours.", date)
      else if time.startHour < MIN_BOOKING_HOUR ∨ time.endHour < MIN_BOOKING_HOUR ∨
              time.startHour > MAX_BOOKING_HOUR ∨ time.endHour > MAX_BOOKING_HOUR then
        (.error "Start and end times must be between 09:00 and 22:00 inclusive.", date)
      else
        (.ok (), date)

/-- `findRooms`: validations, then the external availability query (modelled
by its settled outcome `queryResult`).  Besides the result, the final value
of the caller's `date` is returned. -/
def findRooms (todayStart nowHour : ℤ) (queryResult : Except String (List Room))
    (attendees : ℤ) (time : BookingTime) : Except String (List Room) × ℤ :=
  match validateAttendees attendees with
  | .error e => (.error e, time.date)
  | .ok _ =>
    match validateBookingTime todayStart nowHour time with
    | (.error e, d) => (.error e, d)
    | (.ok _, d) => (queryResult, d)

/-- `bookRoom`: validations, then the external submission (modelled by its
settled outcome `submitResult`); returns `true` on success.  The final value
of the caller's `date` is returned alongside. -/
def bookRoom (todayStart nowHour : ℤ) (submitResult : Except String Unit)
    (attendees : ℤ) (time : BookingTime) : Except String Bool × ℤ :=
  match validateAttendees attendees with
  | .error e => (.error e, time.date)
  | .ok _ =>
    match validateBookingTime todayStart nowHour time with
    | (.error e, d) => (.error e, d)
    | (.ok _, d) =>
      match submitResult with
      | .error e => (.error e, d)
      | .ok _ => (.ok true, d)

/-- A pending assignment pushed onto `roomsToBook`: `{room, time}` with
`time.date` the value of `freeRoom.schedule.date` at push time. -/
structure PendingBooking where
  room : Room
  time : BookingTime
deriving DecidableEq

instance {ε α : Type} [DecidableEq ε] [DecidableEq α] : DecidableEq (Except ε α) := fun a b =>
  match a, b with
  | .ok x, .ok y => decidable_of_iff (x = y) (by simp)
  | .error x, .error y => decidable_of_iff (x = y) (by simp)
  | .ok _, .error _ => isFalse (by simp)
  | .error _, .ok _ => isFalse (by simp)

/-- `validRooms.findIndex(pred)` followed by `validRooms.splice(i, 1)` and
`validRooms[i]`, fused: returns the first room satisfying the predicate
together with the pool with that occurrence removed, or `none` when
`findIndex` returns `-1` (so `validRooms[-1]` is `undefined`). -/
def findIndexRemove (p : Room → Bool) : List Room → Option (Room × List Room)
  | [] => none
  | r :: rest =>
    if p r then some (r, rest)
    else (findIndexRemove p rest).map (fun x => (x.1, r :: x.2))

/-- The predicate the scheduler's `findIndex` applies:
`r.isFree(currentHour, currentEndHour)`.  `Room.isFree` throws on a missing
schedule, but `bookRoomsForDay` has already rejected any schedule-less room
before the loop, so the error branch is unreachable there and is mapped to
`false`. -/
def schedulerFree (r : Room) («from» «to» : ℤ) : Bool :=
  match r.isFree «from» «to» with
  | .ok b => b
  | .error _ => false

/-- The `while (bookedTo !== MAX_BOOKING_HOUR)` loop of `bookRoomsForDay`,
with explicit fuel (the loop terminates; `BOOK_FUEL` below is far more than
the largest possible iteration count).  Returns the accumulated
`roomsToBook` together with the final `bookedTo`. -/
def bookLoop (fuel : ℕ) (validRooms : List Room)
    (currentHour currentDuration bookedTo : ℤ)
    (roomsToBook : List PendingBooking) : List PendingBooking × ℤ :=
  match fuel with
  | 0 => (roomsToBook, bookedTo)
  | fuel + 1 =>
    if bookedTo = MAX_BOOKING_HOUR then (roomsToBook, bookedTo)
    else
      let currentEndHour := currentHour + currentDuration
      match findIndexRemove (fun r => schedulerFree r currentHour currentEndHour) validRooms with
      | none =>
        let currentDuration := currentDuration - BOOKING_TIME_INTERVAL
        if currentDuration = 0 then (roomsToBook, bookedTo)
        else bookLoop fuel validRooms currentHour currentDuration bookedTo roomsToBook
      | some (freeRoom, validRooms) =>
        let time : BookingTime :=
          ⟨(freeRoom.scheduleDate?).getD 0, currentHour, currentEndHour⟩
        let roomsToBook := roomsToBook ++ [⟨freeRoom, time⟩]
        let bookedTo := currentEndHour
        let currentHour := currentHour + currentDuration
        let currentDuration := min (MAX_BOOKING_HOUR - currentHour) MAX_BOOKING_DURATION_HOURS
        bookLoop fuel validRooms currentHour currentDuration bookedTo roomsToBook

/-- Fuel bound for `bookLoop`: the loop advances `currentHour` (bounded by
`MAX_BOOKING_HOUR = 44` half-hour steps) on success and decrements
`currentDuration` (at most 6 consecutive times) on failure, so it can never
run 200 iterations. -/
def BOOK_FUEL : ℕ := 200

/-- `bookRoomsForDay`, up to and including the construction of
`roomsToBook`: attendee validation, the schedule-presence and same-day
precondition checks, the capacity pre-filter, and the greedy fill loop.
The trailing `Promise.allSettled` fan-out submits each pending booking via
`bookRoom` and collects each settled outcome; those outcomes belong to the
external submission collaborator and are not part of the scheduling result
modelled here. -/
def bookRoomsForDay (rooms : List Room) (attendees : ℤ) :
    Except String (List PendingBooking) :=
  match validateAttendees attendees with
  | .error e => .error e
  | .ok _ =>
    if rooms.any (fun r => r.schedule.isNone) then
      .error "A room provided does not have a schedule."
    else if rooms.any (fun r => decide (r.scheduleDate? ≠ (rooms.head?.bind Room.scheduleDate?))) then
      .error "Every room must have a schedule from the same day."
    else
      let validRooms := rooms.filter (fun r => decide (r.capacity ≥ attendees))
      .ok (bookLoop BOOK_FUEL validRooms MIN_BOOKING_HOUR MAX_BOOKING_DURATION_HOURS 0 []).1

/-- The half-hour slot times `9, 9.5, …, 21.5` enumerated by
`for (let i = MIN_BOOKING_HOUR; i < MAX_BOOKING_HOUR; i += 0.5)`, in
half-hour units: `18, 19, …, 43`.  The source then iterates
`Object.entries(schedule)` sorted numerically ascending, which is exactly
this order. -/
def slotTimes : List ℤ :=
  (List.range 26).map (fun (k : ℕ) => MIN_BOOKING_HOUR + (k : ℤ) * BOOKING_TIME_INTERVAL)

/-- One entry of the aggregation state of `findRoomsWithSchedules`: the
source keeps two objects keyed by `room.id` — `roomFreeTimes` (the slot
times) and `foundRooms` (the first `Room` object seen for that id) — whose
key sets always coincide, both in insertion order; they are fused into one
association list here. -/
structure RoomTimes where
  id : String
  room : Room
  times : List ℤ
deriving DecidableEq

/-- Processing one `room` of one slot's result list: push the slot time onto
the room's entry, creating the entry (and recording the room object) on
first sight. -/
def pushRoomTime : List RoomTimes → Room → ℤ → List RoomTimes
  | [], room, t => [⟨room.id, room, [t]⟩]
  | e :: rest, room, t =>
    if e.id = room.id then { e with times := e.times ++ [t] } :: rest
    else e :: pushRoomTime rest room t

/-- Processing one slot: `for (const room of await rooms) …`. -/
def collectSlot (entries : List RoomTimes) (rooms : List Room) (t : ℤ) : List RoomTimes :=
  rooms.foldl (fun es room => pushRoomTime es room t) entries

/-- The aggregation loop over the sorted slots.  `await rooms` on a slot
whose query promise was rejected rethrows that rejection — despite the
earlier `Promise.allSettled`, whose result is discarded — so the first
failed slot (in ascending slot order) aborts the whole aggregation. -/
def collectSlots (query : ℤ → Except String (List Room)) :
    List ℤ → List RoomTimes → Except String (List RoomTimes)
  | [], entries => .ok entries
  | t :: rest, entries =>
    match query t with
    | .error e => .error e
    | .ok rooms => collectSlots query rest (collectSlot entries rooms t)

/-- The per-room coalescing loop
`for (let i = 1; i <= times.length; i++) …`, walking the recorded slot
times with `start` the current run's first slot and `last` the previous
element: a gap other than exactly one step closes the run as
`{from: start, to: last + 0.5}`, and exhausting the list
(`time === undefined`) always closes the final run. -/
def coalesceGo (start : ℤ) : List ℤ → ℤ → List TimeInterval
  | [], last => [⟨start, last + BOOKING_TIME_INTERVAL⟩]
  | time :: rest, last =>
    if time - last ≠ BOOKING_TIME_INTERVAL then
      ⟨start, last + BOOKING_TIME_INTERVAL⟩ :: coalesceGo time rest time
    else
      coalesceGo start rest time

/-- Coalescing a room's recorded free-slot list into intervals
(`let start = times[0]` followed by the loop above; an empty list runs the
loop zero times and yields no intervals). -/
def coalesce : List ℤ → List TimeInterval
  | [] => []
  | t :: rest => coalesceGo t rest t

/-- `findRoomsWithSchedules`: validations, one availability query per
half-hour slot (modelled by the settled outcome `query`), aggregation of the
per-slot results, and coalescing into `RoomSchedule`s.  The mutated (midnight-
truncated) caller date — which is also the date the built schedules carry —
is returned alongside the result. -/
def findRoomsWithSchedules (todayStart nowHour : ℤ)
    (query : ℤ → Except String (List Room)) (attendees : ℤ) (date : ℤ) :
    Except String (List Room) × ℤ :=
  match validateAttendees attendees with
  | .error e => (.error e, date)
  | .ok _ =>
    match validateBookingTime todayStart nowHour
        ⟨date, MIN_BOOKING_HOUR, MIN_BOOKING_HOUR + 2⟩ with
    | (.error e, d) => (.error e, d)
    | (.ok _, d) =>
      match collectSlots query slotTimes [] with
      | .error e => (.error e, d)
      | .ok entries =>
        (.ok (entries.map (fun e =>
          { e.room with schedule := some ⟨d, coalesce e.times⟩ })), d)

end UofGRoomBooker


/-! ## Concrete rooms and collaborator outcomes used in scenario theorems -/

/-- Room of capacity 7 whose schedule records the single free interval
9:00–22:00 on day 0. -/
def roomA : Room :=
  { id := "A", name := "Room A", capacity := 7, schedule := some ⟨0, [⟨18, 44⟩]⟩ }

/-- Second room, identical schedule. -/
def roomB : Room :=
  { id := "B", name := "Room B", capacity := 7, schedule := some ⟨0, [⟨18, 44⟩]⟩ }

/-- Third room, identical schedule. -/
def roomC : Room :=
  { id := "C", name := "Room C", capacity := 7, schedule := some ⟨0, [⟨18, 44⟩]⟩ }

/-- Fourth room, identical schedule. -/
def roomD : Room :=
  { id := "D", name := "Room D", capacity := 7, schedule := some ⟨0, [⟨18, 44⟩]⟩ }

/-- Fifth room, identical schedule. -/
def roomE : Room :=
  { id := "E", name := "Room E", capacity := 7, schedule := some ⟨0, [⟨18, 44⟩]⟩ }

/-- Room of capacity 7 free only 13:00–15:00 (in particular not at 9:00). -/
def roomLateOnly : Room :=
  { id := "L", name := "Room L", capacity := 7, schedule := some ⟨0, [⟨26, 30⟩]⟩ }

/-- Slot-query outcomes where the 9:00 slot's query failed and every other
slot settled successfully with no rooms. -/
def failQuery (t : ℤ) : Except String (List Room) :=
  if t = 18 then .error "slot query failed" else .ok []

/-- Schedule-less room (as returned by a raw availability query). -/
def roomA0 : Room := { id := "A", name := "Room A", capacity := 7 }

/-- Slot-query outcomes where every slot reports `roomA0` free. -/
def constQuery (_ : ℤ) : Except String (List Room) := .ok [roomA0]

/-! ## Helper lemmas -/

theorem find?_isSome_iff {α : Type} (p : α → Bool) (l : List α) :
    (l.find? p).isSome = true ↔ ∃ x ∈ l, p x = true := by
  induction l with
  | nil => simp [List.find?]
  | cons a l ih =>
    by_cases h : p a <;> simp [List.find?, h, ih]

theorem isFree_iff (s : RoomSchedule) (p : ℤ) :
    s.isFree p = true ↔ ∃ t ∈ s.freeTimes, t.«from» ≤ p ∧ p ≤ t.«to» := by
  unfold RoomSchedule.isFree
  rw [find?_isSome_iff]
  simp [ge_iff_le]

theorem isFreeInterval_iff (s : RoomSchedule) (f t : ℤ) :
    s.isFreeInterval f t = true ↔
      ∃ iv ∈ s.freeTimes, iv.«from» ≤ f ∧ f ≤ iv.«to» ∧ iv.«from» ≤ t ∧ t ≤ iv.«to» := by
  unfold RoomSchedule.isFreeInterval
  rw [find?_isSome_iff]
  simp [ge_iff_le, and_assoc]

namespace UofGRoomBooker

theorem hourAligned_always (x : ℤ) : hourAligned x := by
  unfold hourAligned
  rw [Int.fdiv_eq_ediv _ (by norm_num)]
  omega

theorem validateAttendees_ok {a : ℤ} (h1 : MIN_ATTENDEES ≤ a) (h2 : a ≤ MAX_ATTENDEES) :
    validateAttendees a = .ok () := by
  unfold validateAttendees
  rw [if_neg]
  omega

theorem validateBookingTime_snd (todayStart nowHour : ℤ) (time : BookingTime) :
    (validateBookingTime todayStart nowHour time).2 = startOfDay time.date := by
  unfold validateBookingTime
  rw [if_neg (by simp [hourAligned_always])]
  dsimp only
  split_ifs <;> rfl

end UofGRoomBooker

/-! ## Claim theorems -/

/-- Claim C3: for every `RoomSchedule`, the one-argument `isFree(point)` is
true iff some stored interval contains `point` inclusively of both ends, and
the two-argument `isFree(from, to)` is true iff a single stored interval
contains both `from` and `to` inclusively; in particular, for a schedule with
the two adjacent recorded intervals 9:00–11:00 and 11:00–12:00 (first `to` =
second `from`), the block 10:30–11:30 spanning them is not free. -/
theorem isFree_query_semantics :
    (∀ (s : RoomSchedule) (p : ℤ),
      s.isFree p = true ↔ ∃ t ∈ s.freeTimes, t.«from» ≤ p ∧ p ≤ t.«to») ∧
    (∀ (s : RoomSchedule) (f t : ℤ),
      s.isFreeInterval f t = true ↔
        ∃ iv ∈ s.freeTimes, iv.«from» ≤ f ∧ f ≤ iv.«to» ∧ iv.«from» ≤ t ∧ t ≤ iv.«to») ∧
    RoomSchedule.isFreeInterval ⟨0, [⟨18, 22⟩, ⟨22, 24⟩]⟩ 21 23 = false :=
  ⟨isFree_iff, isFreeInterval_iff, by decide⟩

/-- Claim C5 (counterexample): `from = 23` hours (`46`), `to = 23.5` hours
(`47`) satisfies `from < to` with both bounds inside `[0, 24)` hours
(`[0, 48)`), yet construction throws — refuting the claim that construction
succeeds for every such pair. -/
theorem timeInterval_valid_clock_pair_rejected :
    TimeInterval.mk? 46 47 = .error "Times must be between 0 and 23 inclusive." ∧
    (46 : ℤ) < 47 ∧ (0 : ℤ) ≤ 46 ∧ (47 : ℤ) < 48 := by
  decide

/-- Claim C5 (amended): `TimeInterval` construction succeeds exactly when
`from < to` and both bounds lie in `[0, 23]` hours (`[0, 46]` in half-hour
units) — the code's bound is 23 inclusive, not the claimed `[0, 24)`. -/
theorem timeInterval_construction_iff :
    ∀ f t : ℤ, (∃ iv, TimeInterval.mk? f t = .ok iv) ↔
      f < t ∧ 0 ≤ f ∧ f ≤ 46 ∧ 0 ≤ t ∧ t ≤ 46 := by
  intro f t
  unfold TimeInterval.mk?
  split_ifs with h1 h2
  · simp only [reduceCtorEq, exists_false, false_iff]
    omega
  · simp only [reduceCtorEq, exists_false, false_iff]
    omega
  · simp only [Except.ok.injEq, exists_eq', true_iff]
    omega

/-- Claim C10: the maximum-duration check of `validateBookingTime` compares
an hour-valued duration against `MAX_BOOKING_DURATION`, a constant in
milliseconds, so for hour values in `[0, 24]` (half-hour units `[0, 48]`)
that error branch is unreachable — and `bookRoom` accepts a 7-hour block
9:00–16:00 without any error. -/
theorem max_duration_check_unreachable :
    (∀ time : BookingTime, 0 ≤ time.startHour → time.startHour ≤ 48 →
      0 ≤ time.endHour → time.endHour ≤ 48 →
      ¬(time.endHour - time.startHour > UofGRoomBooker.MAX_BOOKING_DURATION)) ∧
    UofGRoomBooker.bookRoom 0 24 (.ok ()) 4 ⟨172800000, 18, 32⟩ = (.ok true, 172800000) := by
  constructor
  · intro t h1 h2 h3 h4
    have hmax : UofGRoomBooker.MAX_BOOKING_DURATION = 21600000 := by decide
    omega
  · decide

/-- Claim C10 (witness): instantiation at the 7-hour block 9:00–16:00. -/
theorem max_duration_check_unreachable_witness :
    ¬((32 : ℤ) - 18 > UofGRoomBooker.MAX_BOOKING_DURATION) :=
  max_duration_check_unreachable.1 ⟨0, 18, 32⟩ (by decide) (by decide) (by decide) (by decide)

/-- Claim C9: `validateBookingTime` truncates the caller's date to midnight
as an observable side effect, and each of `findRooms`, `bookRoom` and
`findRoomsWithSchedules` passes the caller's `Date` object through it (for
`findRooms`/`bookRoom` once the preceding attendee validation passes), so
the date the caller holds afterwards — and, for `findRoomsWithSchedules`,
the date stored in every built schedule — is the start-of-day truncation. -/
theorem booking_date_truncated_in_place :
    (∀ (todayStart nowHour : ℤ) (time : BookingTime),
      (UofGRoomBooker.validateBookingTime todayStart nowHour time).2 =
        UofGRoomBooker.startOfDay time.date) ∧
    (∀ (todayStart nowHour : ℤ) (q : Except String (List Room)) (a : ℤ) (time : BookingTime),
      UofGRoomBooker.validateAttendees a = .ok () →
      (UofGRoomBooker.findRooms todayStart nowHour q a time).2 =
        UofGRoomBooker.startOfDay time.date) ∧
    (∀ (todayStart nowHour : ℤ) (sub : Except String Unit) (a : ℤ) (time : BookingTime),
      UofGRoomBooker.validateAttendees a = .ok () →
      (UofGRoomBooker.bookRoom todayStart nowHour sub a time).2 =
        UofGRoomBooker.startOfDay time.date) ∧
    (∀ (todayStart nowHour : ℤ) (q : ℤ → Except String (List Room)) (a date : ℤ),
      UofGRoomBooker.validateAttendees a = .ok () →
      (UofGRoomBooker.findRoomsWithSchedules todayStart nowHour q a date).2 =
        UofGRoomBooker.startOfDay date) := by
  refine ⟨UofGRoomBooker.validateBookingTime_snd, ?_, ?_, ?_⟩
  · intro ts nh q a time ha
    have h := UofGRoomBooker.validateBookingTime_snd ts nh time
    unfold UofGRoomBooker.findRooms
    rw [ha]
    rcases hv : UofGRoomBooker.validateBookingTime ts nh time with ⟨r, d⟩
    rw [hv] at h
    cases r <;> simpa using h
  · intro ts nh sub a time ha
    have h := UofGRoomBooker.validateBookingTime_snd ts nh time
    unfold UofGRoomBooker.bookRoom
    rw [ha]
    rcases hv : UofGRoomBooker.validateBookingTime ts nh time with ⟨r, d⟩
    rw [hv] at h
    cases r
    · simpa using h
    · cases sub <;> simpa using h
  · intro ts nh q a date ha
    have h := UofGRoomBooker.validateBookingTime_snd ts nh
      ⟨date, UofGRoomBooker.MIN_BOOKING_HOUR, UofGRoomBooker.MIN_BOOKING_HOUR + 2⟩
    unfold UofGRoomBooker.findRoomsWithSchedules
    rw [ha]
    rcases hv : UofGRoomBooker.validateBookingTime ts nh
      ⟨date, UofGRoomBooker.MIN_BOOKING_HOUR, UofGRoomBooker.MIN_BOOKING_HOUR + 2⟩ with ⟨r, d⟩
    rw [hv] at h
    cases r
    · simpa using h
    · rcases UofGRoomBooker.collectSlots q UofGRoomBooker.slotTimes [] with e | entries <;>
        simpa using h

/-- Claim C9 (witness): a concrete `findRooms` call on date `86400005`
(5 ms past midnight of day 1) leaves the caller's date at `86400000`. -/
theorem booking_date_truncated_in_place_witness :
    (UofGRoomBooker.findRooms 0 24 (.ok []) 4 ⟨86400005, 18, 24⟩).2 =
      UofGRoomBooker.startOfDay 86400005 :=
  booking_date_truncated_in_place.2.1 0 24 (.ok []) 4 ⟨86400005, 18, 24⟩ (by decide)

/-- Claim C1 (counterexample): with a single room A of sufficient capacity
free 9:00–22:00 with no gaps, the scheduler books A for 9:00–12:00 and then —
having removed A from the pool — terminates with exactly that one
assignment, not the five assignments the claim states. -/
theorem single_room_day_fill_books_once :
    UofGRoomBooker.bookRoomsForDay [roomA] 4 = .ok [⟨roomA, ⟨0, 18, 24⟩⟩] ∧
    UofGRoomBooker.bookRoomsForDay [roomA] 4 ≠
      .ok [⟨roomA, ⟨0, 18, 24⟩⟩, ⟨roomA, ⟨0, 24, 30⟩⟩, ⟨roomA, ⟨0, 30, 36⟩⟩,
           ⟨roomA, ⟨0, 36, 42⟩⟩, ⟨roomA, ⟨0, 42, 44⟩⟩] := by
  decide

/-- Claim C1 (amended): with five rooms A–E in pool order, each of
sufficient capacity and free 9:00–22:00 with no gaps, the scheduler produces
exactly the five assignments 9–12, 12–15, 15–18, 18–21 and 21–22 (the last
block shrunk to fit the remainder of the day), on the five distinct rooms in
pool order — one assignment per room, since each booked room is removed from
the pool. -/
theorem five_rooms_day_fill :
    UofGRoomBooker.bookRoomsForDay [roomA, roomB, roomC, roomD, roomE] 4 =
      .ok [⟨roomA, ⟨0, 18, 24⟩⟩, ⟨roomB, ⟨0, 24, 30⟩⟩, ⟨roomC, ⟨0, 30, 36⟩⟩,
           ⟨roomD, ⟨0, 36, 42⟩⟩, ⟨roomE, ⟨0, 42, 44⟩⟩] := by
  decide

/-- Claim C2: a single failed half-hour slot query is NOT absorbed — the
aggregation loop of `findRoomsWithSchedules` rethrows the first rejected
slot promise (`await rooms`), so the whole call fails with that slot's
error even though `Promise.allSettled` was awaited beforehand. -/
theorem slot_query_failure_surfaces :
    UofGRoomBooker.findRoomsWithSchedules 0 24 failQuery 4 86400000 =
      (.error "slot query failed", 86400000) := by
  decide

/-! ## Lemmas about the greedy fill loop -/

namespace UofGRoomBooker

theorem findIndexRemove_eq_none {p : Room → Bool} {l : List Room}
    (h : ∀ r ∈ l, p r = false) : findIndexRemove p l = none := by
  induction l with
  | nil => rfl
  | cons a l ih =>
    have ha : p a = false := h a (List.mem_cons_self a l)
    simp [findIndexRemove, ha, ih (fun r hr => h r (List.mem_cons_of_mem _ hr))]

theorem isFreeInterval_shrink {s : RoomSchedule} {e : ℤ} (he : 19 ≤ e)
    (h : s.isFreeInterval 18 e = true) : s.isFreeInterval 18 19 = true := by
  rw [isFreeInterval_iff] at h ⊢
  obtain ⟨iv, hm, h1, h2, h3, h4⟩ := h
  exact ⟨iv, hm, h1, h2, by omega, by omega⟩

theorem bookLoop_succ (fuel : ℕ) (pool : List Room) (h d b : ℤ)
    (acc : List PendingBooking) :
    bookLoop (fuel + 1) pool h d b acc =
      if b = MAX_BOOKING_HOUR then (acc, b)
      else
        match findIndexRemove (fun r => schedulerFree r h (h + d)) pool with
        | none =>
          if d - BOOKING_TIME_INTERVAL = 0 then (acc, b)
          else bookLoop fuel pool h (d - BOOKING_TIME_INTERVAL) b acc
        | some (freeRoom, rest) =>
          bookLoop fuel rest (h + d)
            (min (MAX_BOOKING_HOUR - (h + d)) MAX_BOOKING_DURATION_HOURS) (h + d)
            (acc ++ [⟨freeRoom, ⟨(freeRoom.scheduleDate?).getD 0, h, h + d⟩⟩]) :=
  rfl

theorem bookLoop_no_room {pool : List Room}
    (hfree : ∀ e : ℤ, 19 ≤ e →
      findIndexRemove (fun r => schedulerFree r 18 e) pool = none) :
    ∀ (k fuel : ℕ) (b : ℤ) (acc : List PendingBooking),
      1 ≤ k → k ≤ fuel → b ≠ MAX_BOOKING_HOUR →
      bookLoop fuel pool 18 (k : ℤ) b acc = (acc, b) := by
  intro k
  induction k with
  | zero => intro fuel b acc h1; omega
  | succ k ih =>
    intro fuel b acc _ h2 hb
    obtain ⟨fuel, rfl⟩ : ∃ f, fuel = f + 1 := ⟨fuel - 1, by omega⟩
    rw [bookLoop_succ, if_neg hb,
      hfree (18 + ((k + 1 : ℕ) : ℤ)) (by push_cast; omega)]
    rcases Nat.eq_zero_or_pos k with hk | hk
    · subst hk
      rw [if_pos (by decide)]
    · rw [if_neg (by unfold BOOKING_TIME_INTERVAL; push_cast; omega)]
      have harg : ((k + 1 : ℕ) : ℤ) - BOOKING_TIME_INTERVAL = (k : ℤ) := by
        unfold BOOKING_TIME_INTERVAL
        push_cast
        ring
      rw [harg]
      exact ih fuel b acc (by omega) (by omega) hb

end UofGRoomBooker

/-- Claim C8: when no eligible room is free for the 9:00–9:30 block (and
hence none is free for any block starting at 9:00), the day-fill loop
shrinks `currentDuration` step by step to exactly 0 at `currentHour = 9` and
stops: `bookRoomsForDay` returns `ok []` (a silent partial result, not an
error) and the loop ends with `bookedTo` still 0. -/
theorem no_room_at_opening_yields_empty :
    ∀ (rooms : List Room) (attendees : ℤ),
      UofGRoomBooker.validateAttendees attendees = .ok () →
      (∀ r ∈ rooms, r.schedule.isNone = false) →
      (∀ r ∈ rooms, r.scheduleDate? = rooms.head?.bind Room.scheduleDate?) →
      (∀ r ∈ rooms, attendees ≤ r.capacity → UofGRoomBooker.schedulerFree r 18 19 = false) →
      UofGRoomBooker.bookRoomsForDay rooms attendees = .ok [] ∧
      UofGRoomBooker.bookLoop UofGRoomBooker.BOOK_FUEL
          (rooms.filter (fun r => decide (r.capacity ≥ attendees)))
          UofGRoomBooker.MIN_BOOKING_HOUR UofGRoomBooker.MAX_BOOKING_DURATION_HOURS 0 []
        = ([], 0) := by
  intro rooms attendees ha hsched hdate hfree
  have hfiltered : ∀ (e : ℤ), 19 ≤ e →
      UofGRoomBooker.findIndexRemove (fun r => UofGRoomBooker.schedulerFree r 18 e)
        (rooms.filter (fun r => decide (r.capacity ≥ attendees))) = none := by
    intro e he
    apply UofGRoomBooker.findIndexRemove_eq_none
    intro r hr
    rw [List.mem_filter] at hr
    obtain ⟨hrm, hcap⟩ := hr
    have hcap' : attendees ≤ r.capacity := of_decide_eq_true hcap
    have hbase := hfree r hrm hcap'
    unfold UofGRoomBooker.schedulerFree Room.isFree at hbase ⊢
    cases hs : r.schedule with
    | none => rfl
    | some s =>
      rw [hs] at hbase
      dsimp only at hbase ⊢
      cases hfe : s.isFreeInterval 18 e with
      | false => rfl
      | true =>
        have h19 := UofGRoomBooker.isFreeInterval_shrink he hfe
        rw [h19] at hbase
        cases hbase
  have hloop := UofGRoomBooker.bookLoop_no_room hfiltered 6 UofGRoomBooker.BOOK_FUEL 0 []
    (by omega) (by unfold UofGRoomBooker.BOOK_FUEL; omega)
    (by unfold UofGRoomBooker.MAX_BOOKING_HOUR; omega)
  have hloop' : UofGRoomBooker.bookLoop UofGRoomBooker.BOOK_FUEL
      (rooms.filter (fun r => decide (r.capacity ≥ attendees)))
      UofGRoomBooker.MIN_BOOKING_HOUR UofGRoomBooker.MAX_BOOKING_DURATION_HOURS 0 [] = ([], 0) := by
    have h6 : ((6 : ℕ) : ℤ) = UofGRoomBooker.MAX_BOOKING_DURATION_HOURS := by decide
    rw [← h6]
    exact hloop
  refine ⟨?_, hloop'⟩
  have hno : ¬(rooms.any (fun r => r.schedule.isNone) = true) := by
    rw [List.any_eq_true]
    rintro ⟨r, hr, hpred⟩
    rw [hsched r hr] at hpred
    cases hpred
  have hdt : ¬(rooms.any
      (fun r => decide (r.scheduleDate? ≠ rooms.head?.bind Room.scheduleDate?)) = true) := by
    rw [List.any_eq_true]
    rintro ⟨r, hr, hpred⟩
    exact (of_decide_eq_true hpred) (hdate r hr)
  unfold UofGRoomBooker.bookRoomsForDay
  rw [ha]
  dsimp only
  rw [if_neg hno, if_neg hdt, hloop']

/-- Claim C8 (witness): instantiation with a single eligible room that is
free only 13:00–15:00, so free for no block starting at 9:00. -/
theorem no_room_at_opening_yields_empty_witness :
    UofGRoomBooker.bookRoomsForDay [roomLateOnly] 4 = .ok [] ∧
    UofGRoomBooker.bookLoop UofGRoomBooker.BOOK_FUEL
        ([roomLateOnly].filter (fun r => decide (r.capacity ≥ 4)))
        UofGRoomBooker.MIN_BOOKING_HOUR UofGRoomBooker.MAX_BOOKING_DURATION_HOURS 0 []
      = ([], 0) :=
  no_room_at_opening_yields_empty [roomLateOnly] 4 (by decide) (by decide) (by decide)
    (by decide)

/-! ## Specification-side description of run splitting (for claim C4) -/

/-- Specification-side run collector: walking the remaining slots with `cur`
the slots of the current run (nonempty, in order) and `last` its final slot,
split exactly when the gap to the next slot exceeds one 0.5-hour step, and
close the final run when the list is exhausted. -/
def runsGo (cur : List ℤ) (last : ℤ) : List ℤ → List (List ℤ)
  | [] => [cur]
  | t :: rest =>
    if t - last > UofGRoomBooker.BOOKING_TIME_INTERVAL then cur :: runsGo [t] t rest
    else runsGo (cur ++ [t]) t rest

/-- Specification-side splitting of an ascending slot list into maximal runs
separated by gaps larger than one 0.5-hour step. -/
def runsOf : List ℤ → List (List ℤ)
  | [] => []
  | t :: rest => runsGo [t] t rest

/-- Closing a run as the interval `[runStart, lastSlot + 0.5)`. -/
def closeRun (run : List ℤ) : TimeInterval :=
  ⟨run.headD 0, run.getLastD 0 + UofGRoomBooker.BOOKING_TIME_INTERVAL⟩

theorem headD_append_ne_nil {l : List ℤ} (t d : ℤ) (h : l ≠ []) :
    (l ++ [t]).headD d = l.headD d := by
  cases l with
  | nil => exact absurd rfl h
  | cons a l => rfl

theorem getLastD_append_singleton (l : List ℤ) (t : ℤ) :
    ∀ d, (l ++ [t]).getLastD d = t := by
  induction l with
  | nil => intro d; rfl
  | cons a l ih =>
    intro d
    rw [List.cons_append, List.getLastD_cons]
    exact ih a

theorem coalesceGo_nil (start last : ℤ) :
    UofGRoomBooker.coalesceGo start [] last =
      [⟨start, last + UofGRoomBooker.BOOKING_TIME_INTERVAL⟩] :=
  rfl

theorem coalesceGo_cons (start t last : ℤ) (rest : List ℤ) :
    UofGRoomBooker.coalesceGo start (t :: rest) last =
      if t - last ≠ UofGRoomBooker.BOOKING_TIME_INTERVAL then
        ⟨start, last + UofGRoomBooker.BOOKING_TIME_INTERVAL⟩ ::
          UofGRoomBooker.coalesceGo t rest t
      else UofGRoomBooker.coalesceGo start rest t :=
  rfl

theorem runsGo_cons (cur : List ℤ) (last t : ℤ) (rest : List ℤ) :
    runsGo cur last (t :: rest) =
      if t - last > UofGRoomBooker.BOOKING_TIME_INTERVAL then cur :: runsGo [t] t rest
      else runsGo (cur ++ [t]) t rest :=
  rfl

theorem coalesceGo_eq_runsGo (ts : List ℤ) :
    ∀ (cur : List ℤ) (start last : ℤ),
      cur ≠ [] → cur.headD 0 = start → cur.getLastD 0 = last →
      List.Chain' (· < ·) (last :: ts) →
      UofGRoomBooker.coalesceGo start ts last = (runsGo cur last ts).map closeRun := by
  induction ts with
  | nil =>
    intro cur start last hne hh hl _
    rw [coalesceGo_nil]
    show _ = [cur].map closeRun
    rw [List.map_cons, List.map_nil]
    unfold closeRun
    rw [hh, hl]
  | cons t rest ih =>
    intro cur start last hne hh hl hchain
    rw [List.chain'_cons] at hchain
    obtain ⟨hstep, hchain'⟩ := hchain
    by_cases hgap : t - last = UofGRoomBooker.BOOKING_TIME_INTERVAL
    · rw [coalesceGo_cons, if_neg (by omega), runsGo_cons,
        if_neg (by unfold UofGRoomBooker.BOOKING_TIME_INTERVAL at hgap ⊢; omega)]
      exact ih (cur ++ [t]) start t (by simp)
        (by rw [headD_append_ne_nil t 0 hne, hh])
        (getLastD_append_singleton cur t 0) hchain'
    · have hgap' : t - last > UofGRoomBooker.BOOKING_TIME_INTERVAL := by
        unfold UofGRoomBooker.BOOKING_TIME_INTERVAL at hgap ⊢
        omega
      rw [coalesceGo_cons, if_pos hgap, runsGo_cons, if_pos hgap', List.map_cons]
      congr 1
      · unfold closeRun
        rw [hh, hl]
      · exact ih [t] t t (by simp) rfl rfl hchain'

/-- Claim C4: the schedule builder's coalescing loop splits an ascending
slot list into runs exactly at gaps larger than one 0.5-hour step, closes
each run as `[runStart, lastSlot + 0.5)`, and always closes the final run at
the end of the list (refinement: `coalesce` equals the specification-side
`runsOf`/`closeRun` description for every ascending slot list); in
particular the slots `{9, 9.5, 10, 11, 11.5}` (half-hour units
`{18, 19, 20, 22, 23}`) yield exactly `[9, 10.5)` and `[11, 12)`
(`⟨18, 21⟩` and `⟨22, 24⟩`). -/
theorem coalesce_splits_at_large_gaps :
    (∀ ts : List ℤ, List.Chain' (· < ·) ts →
      UofGRoomBooker.coalesce ts = (runsOf ts).map closeRun) ∧
    UofGRoomBooker.coalesce [18, 19, 20, 22, 23] = [⟨18, 21⟩, ⟨22, 24⟩] := by
  constructor
  · intro ts hchain
    cases ts with
    | nil => rfl
    | cons t rest =>
      show UofGRoomBooker.coalesceGo t rest t = (runsGo [t] t rest).map closeRun
      exact coalesceGo_eq_runsGo rest [t] t t (by simp) rfl rfl hchain
  · decide

/-- Claim C4 (witness): instantiation of the refinement at the ascending
slot list `{18, 19, 20, 22, 23}`. -/
theorem coalesce_splits_at_large_gaps_witness :
    UofGRoomBooker.coalesce [18, 19, 20, 22, 23] =
      (runsOf [18, 19, 20, 22, 23]).map closeRun :=
  coalesce_splits_at_large_gaps.1 [18, 19, 20, 22, 23]
    (by norm_num [List.chain'_cons])

/-! ## Invariants of the greedy fill loop (for claim C7) -/

namespace UofGRoomBooker

theorem findIndexRemove_cons (p : Room → Bool) (a : Room) (l : List Room) :
    findIndexRemove p (a :: l) =
      if p a then some (a, l)
      else (findIndexRemove p l).map (fun x => (x.1, a :: x.2)) :=
  rfl

theorem findIndexRemove_some {p : Room → Bool} :
    ∀ {l : List Room} {r : Room} {rest : List Room},
      findIndexRemove p l = some (r, rest) →
      ∃ l₁ l₂, l = l₁ ++ r :: l₂ ∧ rest = l₁ ++ l₂ ∧ p r = true := by
  intro l
  induction l with
  | nil => intro r rest h; cases h
  | cons a l ih =>
    intro r rest h
    rw [findIndexRemove_cons] at h
    by_cases hpa : p a = true
    · rw [if_pos hpa] at h
      obtain ⟨rfl, rfl⟩ : a = r ∧ l = rest := by
        cases h
        exact ⟨rfl, rfl⟩
      exact ⟨[], l, rfl, rfl, hpa⟩
    · rw [if_neg hpa] at h
      cases hfl : findIndexRemove p l with
      | none => rw [hfl] at h; cases h
      | some x =>
        obtain ⟨x1, x2⟩ := x
        rw [hfl] at h
        obtain ⟨rfl, rfl⟩ : x1 = r ∧ a :: x2 = rest := by
          cases h
          exact ⟨rfl, rfl⟩
        obtain ⟨l₁, l₂, hl, hres, hp⟩ := ih hfl
        exact ⟨a :: l₁, l₂, by rw [List.cons_append, hl], by rw [List.cons_append, hres], hp⟩

theorem schedulerFree_eq_true {r : Room} {f t : ℤ} (h : schedulerFree r f t = true) :
    ∃ s, r.schedule = some s ∧ s.isFreeInterval f t = true := by
  unfold schedulerFree Room.isFree at h
  cases hs : r.schedule with
  | none => rw [hs] at h; cases h
  | some s =>
    rw [hs] at h
    exact ⟨s, rfl, h⟩

theorem bookLoop_invariant :
    ∀ (fuel : ℕ) (pool : List Room) (h d b : ℤ) (acc : List PendingBooking),
      pool.Nodup →
      (∀ pb ∈ acc, pb.room ∉ pool) →
      acc.Pairwise (fun x y => x.room ≠ y.room) →
      acc.Pairwise (fun x y => x.time.endHour ≤ y.time.startHour) →
      (∀ pb ∈ acc, pb.time.endHour ≤ h) →
      (∀ pb ∈ acc,
        pb.time.endHour - pb.time.startHour ≤ MAX_BOOKING_DURATION_HOURS ∧
        ∃ s, pb.room.schedule = some s ∧ ∃ iv ∈ s.freeTimes,
          iv.«from» ≤ pb.time.startHour ∧ pb.time.endHour ≤ iv.«to») →
      d ≤ MAX_BOOKING_DURATION_HOURS →
      h + d ≤ MAX_BOOKING_HOUR →
      (b ≠ MAX_BOOKING_HOUR → 0 < d) →
      (bookLoop fuel pool h d b acc).1.Pairwise (fun x y => x.room ≠ y.room) ∧
      (bookLoop fuel pool h d b acc).1.Pairwise
        (fun x y => x.time.endHour ≤ y.time.startHour) ∧
      (∀ pb ∈ (bookLoop fuel pool h d b acc).1,
        pb.time.endHour - pb.time.startHour ≤ MAX_BOOKING_DURATION_HOURS ∧
        ∃ s, pb.room.schedule = some s ∧ ∃ iv ∈ s.freeTimes,
          iv.«from» ≤ pb.time.startHour ∧ pb.time.endHour ≤ iv.«to») := by
  intro fuel
  induction fuel with
  | zero =>
    intro pool h d b acc _ _ hpr hpc _ hbk _ _ _
    exact ⟨hpr, hpc, hbk⟩
  | succ fuel ih =>
    intro pool h d b acc hnodup hdisj hpr hpc hhigh hbk hd3 hle hdpos
    rw [bookLoop_succ]
    by_cases hb : b = MAX_BOOKING_HOUR
    · rw [if_pos hb]
      exact ⟨hpr, hpc, hbk⟩
    · rw [if_neg hb]
      have hdpos' : 0 < d := hdpos hb
      cases hfind : findIndexRemove (fun r => schedulerFree r h (h + d)) pool with
      | none =>
        dsimp only
        by_cases hz : d - BOOKING_TIME_INTERVAL = 0
        · rw [if_pos hz]
          exact ⟨hpr, hpc, hbk⟩
        · rw [if_neg hz]
          refine ih pool h (d - BOOKING_TIME_INTERVAL) b acc hnodup hdisj hpr hpc hhigh hbk
            ?_ ?_ ?_
          · unfold BOOKING_TIME_INTERVAL
            omega
          · unfold BOOKING_TIME_INTERVAL at *
            omega
          · intro _
            unfold BOOKING_TIME_INTERVAL at hz ⊢
            omega
      | some x =>
        obtain ⟨freeRoom, rest⟩ := x
        dsimp only
        obtain ⟨l₁, l₂, hpool, hrest, hpred⟩ := findIndexRemove_some hfind
        have hrsub : ∀ x ∈ rest, x ∈ pool := by
          intro x hx
          rw [hrest, List.mem_append] at hx
          rw [hpool, List.mem_append]
          rcases hx with hx | hx
          · exact Or.inl hx
          · exact Or.inr (List.mem_cons_of_mem _ hx)
        have hfmem : freeRoom ∈ pool := by
          rw [hpool, List.mem_append]
          exact Or.inr (List.mem_cons_self _ _)
        have hmid : (freeRoom :: (l₁ ++ l₂)).Nodup := by
          rw [← List.nodup_middle, ← hpool]
          exact hnodup
        rw [List.nodup_cons] at hmid
        obtain ⟨hfnotin, hrestnodup⟩ := hmid
        obtain ⟨s, hs, hfree⟩ := schedulerFree_eq_true hpred
        rw [isFreeInterval_iff] at hfree
        obtain ⟨iv, hivm, hiv1, hiv2, hiv3, hiv4⟩ := hfree
        set pb : PendingBooking := ⟨freeRoom, ⟨(freeRoom.scheduleDate?).getD 0, h, h + d⟩⟩ with hpb
        have hlemin : min (MAX_BOOKING_HOUR - (h + d)) MAX_BOOKING_DURATION_HOURS ≤
            MAX_BOOKING_HOUR - (h + d) := min_le_left _ _
        have hlemax : min (MAX_BOOKING_HOUR - (h + d)) MAX_BOOKING_DURATION_HOURS ≤
            MAX_BOOKING_DURATION_HOURS := min_le_right _ _
        refine ih rest (h + d)
          (min (MAX_BOOKING_HOUR - (h + d)) MAX_BOOKING_DURATION_HOURS) (h + d)
          (acc ++ [pb]) ?_ ?_ ?_ ?_ ?_ ?_ ?_ ?_ ?_
        · rw [hrest]
          exact hrestnodup
        · intro x hx
          rw [List.mem_append, List.mem_singleton] at hx
          rcases hx with hx | rfl
          · intro hcon
            exact hdisj x hx (hrsub _ hcon)
          · show freeRoom ∉ rest
            rw [hrest]
            exact hfnotin
        · rw [List.pairwise_append]
          refine ⟨hpr, List.pairwise_singleton _ _, ?_⟩
          intro x hx y hy
          rw [List.mem_singleton] at hy
          subst hy
          intro hcon
          exact hdisj x hx (hcon ▸ hfmem)
        · rw [List.pairwise_append]
          refine ⟨hpc, List.pairwise_singleton _ _, ?_⟩
          intro x hx y hy
          rw [List.mem_singleton] at hy
          subst hy
          exact hhigh x hx
        · intro x hx
          rw [List.mem_append, List.mem_singleton] at hx
          rcases hx with hx | rfl
          · have := hhigh x hx
            omega
          · show h + d ≤ h + d
            omega
        · intro x hx
          rw [List.mem_append, List.mem_singleton] at hx
          rcases hx with hx | rfl
          · exact hbk x hx
          · refine ⟨by dsimp; omega, s, hs, iv, hivm, by dsimp; omega, by dsimp; omega⟩
        · exact hlemax
        · linarith [hlemin]
        · intro hb'
          have : h + d < MAX_BOOKING_HOUR := lt_of_le_of_ne hle hb'
          have h6 : (0 : ℤ) < MAX_BOOKING_DURATION_HOURS := by decide
          exact lt_min (by omega) h6

end UofGRoomBooker

open UofGRoomBooker in
/-- Claim C7: for every input room list (without duplicate rooms) and
attendee count, a successful `bookRoomsForDay` run's assignment list has
pairwise distinct rooms, pairwise non-overlapping time blocks, every
assignment duration at most the 3-hour maximum, and every assignment's block
contained in one of its room's recorded free-time intervals. -/
theorem day_fill_run_invariants :
    ∀ (rooms : List Room) (attendees : ℤ) (out : List PendingBooking),
      rooms.Nodup →
      UofGRoomBooker.bookRoomsForDay rooms attendees = .ok out →
      out.Pairwise (fun x y => x.room ≠ y.room) ∧
      out.Pairwise (fun x y =>
        x.time.endHour ≤ y.time.startHour ∨ y.time.endHour ≤ x.time.startHour) ∧
      (∀ pb ∈ out,
        pb.time.endHour - pb.time.startHour ≤ UofGRoomBooker.MAX_BOOKING_DURATION_HOURS) ∧
      (∀ pb ∈ out, ∃ s, pb.room.schedule = some s ∧ ∃ iv ∈ s.freeTimes,
        iv.«from» ≤ pb.time.startHour ∧ pb.time.endHour ≤ iv.«to») := by
  intro rooms attendees out hnodup hok
  unfold UofGRoomBooker.bookRoomsForDay at hok
  rcases hva : UofGRoomBooker.validateAttendees attendees with e | u
  · rw [hva] at hok
    cases hok
  · rw [hva] at hok
    dsimp only at hok
    by_cases h1 : rooms.any (fun r => r.schedule.isNone) = true
    · rw [if_pos h1] at hok
      cases hok
    · rw [if_neg h1] at hok
      by_cases h2 : rooms.any
          (fun r => decide (r.scheduleDate? ≠ rooms.head?.bind Room.scheduleDate?)) = true
      · rw [if_pos h2] at hok
        cases hok
      · rw [if_neg h2] at hok
        have hout : (UofGRoomBooker.bookLoop UofGRoomBooker.BOOK_FUEL
            (rooms.filter (fun r => decide (r.capacity ≥ attendees)))
            UofGRoomBooker.MIN_BOOKING_HOUR UofGRoomBooker.MAX_BOOKING_DURATION_HOURS 0 []).1
            = out := by
          cases hok
          rfl
        obtain ⟨hA, hB, hC⟩ := UofGRoomBooker.bookLoop_invariant UofGRoomBooker.BOOK_FUEL
          (rooms.filter (fun r => decide (r.capacity ≥ attendees)))
          UofGRoomBooker.MIN_BOOKING_HOUR UofGRoomBooker.MAX_BOOKING_DURATION_HOURS 0 []
          (hnodup.filter _)
          (by intro pb hpb; cases hpb)
          List.Pairwise.nil List.Pairwise.nil
          (by intro pb hpb; cases hpb)
          (by intro pb hpb; cases hpb)
          le_rfl
          (by decide)
          (fun _ => by decide)
        rw [hout] at hA hB hC
        refine ⟨hA, hB.imp (fun hxy => Or.inl hxy), ?_, ?_⟩
        · intro pb hpb
          exact (hC pb hpb).1
        · intro pb hpb
          exact (hC pb hpb).2

open UofGRoomBooker in
/-- Claim C7 (witness): instantiation at the single-room pool `[roomA]`
with 4 attendees, whose run produces the one assignment 9:00–12:00. -/
theorem day_fill_run_invariants_witness :
    ([⟨roomA, ⟨0, 18, 24⟩⟩] : List PendingBooking).Pairwise (fun x y => x.room ≠ y.room) ∧
    ([⟨roomA, ⟨0, 18, 24⟩⟩] : List PendingBooking).Pairwise (fun x y =>
      x.time.endHour ≤ y.time.startHour ∨ y.time.endHour ≤ x.time.startHour) ∧
    (∀ pb ∈ ([⟨roomA, ⟨0, 18, 24⟩⟩] : List PendingBooking),
      pb.time.endHour - pb.time.startHour ≤ UofGRoomBooker.MAX_BOOKING_DURATION_HOURS) ∧
    (∀ pb ∈ ([⟨roomA, ⟨0, 18, 24⟩⟩] : List PendingBooking),
      ∃ s, pb.room.schedule = some s ∧ ∃ iv ∈ s.freeTimes,
        iv.«from» ≤ pb.time.startHour ∧ pb.time.endHour ≤ iv.«to») :=
  day_fill_run_invariants [roomA] 4 [⟨roomA, ⟨0, 18, 24⟩⟩] (by decide) (by decide)

/-! ## Invariants of the schedule builder (for claim C6) -/

namespace UofGRoomBooker

/-- Invariant of one aggregation entry while the rooms of the slot at time
`t` are being folded in, `ids` being the ids of the rooms still to process:
the recorded times are nonempty, strictly ascending, within the slot range,
end no later than `t`, and strictly earlier than `t` when this entry's room
has not yet been processed for this slot. -/
def SlotInv (t : ℤ) (ids : List String) (e : RoomTimes) : Prop :=
  e.times ≠ [] ∧ e.times.Chain' (· < ·) ∧ (∀ x ∈ e.times, 18 ≤ x ∧ x ≤ 43) ∧
  e.times.getLastD 0 ≤ t ∧ (e.id ∈ ids → e.times.getLastD 0 < t)

/-- Invariant of one aggregation entry between slots, `ss` being the slots
still to process. -/
def SlotsPre (ss : List ℤ) (e : RoomTimes) : Prop :=
  e.times ≠ [] ∧ e.times.Chain' (· < ·) ∧ (∀ x ∈ e.times, 18 ≤ x ∧ x ≤ 43) ∧
  ∀ u ∈ ss, e.times.getLastD 0 < u

theorem chain'_concat_lt :
    ∀ {l : List ℤ} {t : ℤ}, l.Chain' (· < ·) → l.getLastD 0 < t →
      (l ++ [t]).Chain' (· < ·) := by
  intro l
  induction l with
  | nil => intro t _ _; simp
  | cons a l ih =>
    intro t hc hl
    cases l with
    | nil =>
      simp only [List.cons_append, List.nil_append]
      exact List.chain'_cons.mpr ⟨hl, List.chain'_singleton t⟩
    | cons b l' =>
      rw [List.cons_append]
      rw [List.chain'_cons] at hc
      refine List.chain'_cons.mpr ⟨hc.1, ih hc.2 ?_⟩
      rw [List.getLastD_cons, List.getLastD_cons] at hl
      rw [List.getLastD_cons]
      exact hl

theorem pushRoomTime_nil (r : Room) (t : ℤ) :
    pushRoomTime [] r t = [⟨r.id, r, [t]⟩] :=
  rfl

theorem pushRoomTime_cons (e : RoomTimes) (entries : List RoomTimes) (r : Room) (t : ℤ) :
    pushRoomTime (e :: entries) r t =
      if e.id = r.id then { e with times := e.times ++ [t] } :: entries
      else e :: pushRoomTime entries r t :=
  rfl

theorem pushRoomTime_slotInv {t : ℤ} {r : Room} {ids : List String}
    (hr : r.id ∉ ids) (hb : 18 ≤ t ∧ t ≤ 43) :
    ∀ (entries : List RoomTimes),
      (∀ e ∈ entries, SlotInv t (r.id :: ids) e) →
      ∀ e' ∈ pushRoomTime entries r t, SlotInv t ids e' := by
  intro entries
  induction entries with
  | nil =>
    intro _ e' he'
    rw [pushRoomTime_nil, List.mem_singleton] at he'
    subst he'
    refine ⟨by simp, List.chain'_singleton t, ?_, le_refl t, fun hmem => absurd hmem hr⟩
    intro x hx
    rw [List.mem_singleton] at hx
    subst hx
    exact hb
  | cons a entries ih =>
    intro hpre e' he'
    rw [pushRoomTime_cons] at he'
    by_cases hid : a.id = r.id
    · rw [if_pos hid] at he'
      rcases List.mem_cons.mp he' with rfl | hmem
      · obtain ⟨hne, hch, hbd, hle, hlt⟩ := hpre a (List.mem_cons_self _ _)
        have hlt' : a.times.getLastD 0 < t := hlt (by rw [hid]; exact List.mem_cons_self _ _)
        refine ⟨by simp, chain'_concat_lt hch hlt', ?_, ?_, ?_⟩
        · intro x hx
          rw [List.mem_append, List.mem_singleton] at hx
          rcases hx with hx | rfl
          · exact hbd x hx
          · exact hb
        · rw [getLastD_append_singleton]
        · intro hmem
          exact absurd (hid ▸ hmem) hr
      · obtain ⟨hne, hch, hbd, hle, hlt⟩ := hpre e' (List.mem_cons_of_mem _ hmem)
        exact ⟨hne, hch, hbd, hle, fun hm => hlt (List.mem_cons_of_mem _ hm)⟩
    · rw [if_neg hid] at he'
      rcases List.mem_cons.mp he' with rfl | hmem
      · obtain ⟨hne, hch, hbd, hle, hlt⟩ := hpre e' (List.mem_cons_self _ _)
        exact ⟨hne, hch, hbd, hle, fun hm => hlt (List.mem_cons_of_mem _ hm)⟩
      · exact ih (fun e he => hpre e (List.mem_cons_of_mem _ he)) e' hmem

theorem collectSlot_slotInv {t : ℤ} (hb : 18 ≤ t ∧ t ≤ 43) :
    ∀ (rs : List Room) (entries : List RoomTimes),
      (rs.map Room.id).Nodup →
      (∀ e ∈ entries, SlotInv t (rs.map Room.id) e) →
      ∀ e' ∈ collectSlot entries rs t, SlotInv t [] e' := by
  intro rs
  induction rs with
  | nil => intro entries _ hpre e' he'; exact hpre e' he'
  | cons r rs ih =>
    intro entries hnodup hpre e' he'
    rw [List.map_cons, List.nodup_cons] at hnodup
    rw [show collectSlot entries (r :: rs) t = collectSlot (pushRoomTime entries r t) rs t
      from rfl] at he'
    exact ih (pushRoomTime entries r t) hnodup.2
      (pushRoomTime_slotInv hnodup.1 hb entries hpre) e' he'

theorem collectSlots_cons (query : ℤ → Except String (List Room)) (t : ℤ)
    (rest : List ℤ) (entries : List RoomTimes) :
    collectSlots query (t :: rest) entries =
      match query t with
      | .error e => .error e
      | .ok rooms => collectSlots query rest (collectSlot entries rooms t) :=
  rfl

theorem collectSlots_inv :
    ∀ (ss : List ℤ) (query : ℤ → Except String (List Room))
      (entries entries' : List RoomTimes),
      ss.Pairwise (· < ·) →
      (∀ u ∈ ss, 18 ≤ u ∧ u ≤ 43) →
      (∀ u rs, query u = .ok rs → (rs.map Room.id).Nodup) →
      (∀ e ∈ entries, SlotsPre ss e) →
      collectSlots query ss entries = .ok entries' →
      ∀ e ∈ entries',
        e.times ≠ [] ∧ e.times.Chain' (· < ·) ∧ ∀ x ∈ e.times, 18 ≤ x ∧ x ≤ 43 := by
  intro ss
  induction ss with
  | nil =>
    intro query entries entries' _ _ _ hpre heq
    cases heq
    intro e he
    obtain ⟨h1, h2, h3, _⟩ := hpre e he
    exact ⟨h1, h2, h3⟩
  | cons t ss ih =>
    intro query entries entries' hpw hbounds hq hpre heq
    rw [collectSlots_cons] at heq
    cases hqt : query t with
    | error e => rw [hqt] at heq; cases heq
    | ok rs =>
      rw [hqt] at heq
      have hbt : 18 ≤ t ∧ t ≤ 43 := hbounds t (List.mem_cons_self _ _)
      rw [List.pairwise_cons] at hpw
      obtain ⟨hlt, hpw'⟩ := hpw
      have hcoll : ∀ e ∈ collectSlot entries rs t, SlotInv t [] e := by
        refine collectSlot_slotInv hbt rs entries (hq t rs hqt) ?_
        intro e0 he0
        obtain ⟨h1, h2, h3, h4⟩ := hpre e0 he0
        have hlt0 : e0.times.getLastD 0 < t := h4 t (List.mem_cons_self _ _)
        exact ⟨h1, h2, h3, by omega, fun _ => hlt0⟩
      refine ih query (collectSlot entries rs t) entries' hpw'
        (fun u hu => hbounds u (List.mem_cons_of_mem _ hu)) hq ?_ heq
      intro e he
      obtain ⟨h1, h2, h3, h4, _⟩ := hcoll e he
      refine ⟨h1, h2, h3, ?_⟩
      intro u hu
      have := hlt u hu
      omega

theorem coalesce_cons (t : ℤ) (rest : List ℤ) :
    coalesce (t :: rest) = coalesceGo t rest t :=
  rfl

theorem coalesceGo_invariants :
    ∀ (ts : List ℤ) (start last : ℤ),
      start ≤ last → List.Chain' (· < ·) (last :: ts) →
      18 ≤ start → (∀ x ∈ last :: ts, x ≤ 43) →
      (∀ iv ∈ coalesceGo start ts last,
        start ≤ iv.«from» ∧ iv.«from» < iv.«to» ∧ 18 ≤ iv.«from» ∧ iv.«to» ≤ 44) ∧
      (coalesceGo start ts last).Pairwise (fun a b => a.«to» ≤ b.«from») := by
  intro ts
  induction ts with
  | nil =>
    intro start last hsl _ h18 hbd
    rw [coalesceGo_nil]
    constructor
    · intro iv hiv
      rw [List.mem_singleton] at hiv
      subst hiv
      have hl43 : last ≤ 43 := hbd last (List.mem_cons_self _ _)
      refine ⟨le_refl _, ?_, h18, ?_⟩ <;> (unfold BOOKING_TIME_INTERVAL; dsimp only; omega)
    · exact List.pairwise_singleton _ _
  | cons t rest ih =>
    intro start last hsl hchain h18 hbd
    rw [List.chain'_cons] at hchain
    obtain ⟨hlt, hchain'⟩ := hchain
    by_cases hgap : t - last = BOOKING_TIME_INTERVAL
    · rw [coalesceGo_cons, if_neg (by omega)]
      exact ih start t (by omega) hchain' h18
        (fun x hx => hbd x (List.mem_cons_of_mem _ hx))
    · rw [coalesceGo_cons, if_pos hgap]
      obtain ⟨ihA, ihB⟩ := ih t t le_rfl hchain' (by omega)
        (fun x hx => hbd x (List.mem_cons_of_mem _ hx))
      constructor
      · intro iv hiv
        rcases List.mem_cons.mp hiv with rfl | hiv'
        · have hl43 : last ≤ 43 := hbd last (List.mem_cons_self _ _)
          refine ⟨le_refl _, ?_, h18, ?_⟩ <;> (unfold BOOKING_TIME_INTERVAL; dsimp only; omega)
        · obtain ⟨hA1, hA2, hA3, hA4⟩ := ihA iv hiv'
          exact ⟨by omega, hA2, hA3, hA4⟩
      · rw [List.pairwise_cons]
        refine ⟨?_, ihB⟩
        intro iv hiv
        obtain ⟨hA1, _, _, _⟩ := ihA iv hiv
        show last + BOOKING_TIME_INTERVAL ≤ iv.«from»
        unfold BOOKING_TIME_INTERVAL
        omega

theorem slotTimes_pairwise : slotTimes.Pairwise (· < ·) := by
  unfold slotTimes
  refine List.Pairwise.map _ ?_ (List.pairwise_lt_range 26)
  intro a b hab
  unfold MIN_BOOKING_HOUR BOOKING_TIME_INTERVAL
  omega

theorem slotTimes_bounds : ∀ u ∈ slotTimes, 18 ≤ u ∧ u ≤ 43 := by
  intro u hu
  unfold slotTimes at hu
  rw [List.mem_map] at hu
  obtain ⟨k, hk, rfl⟩ := hu
  rw [List.mem_range] at hk
  unfold MIN_BOOKING_HOUR BOOKING_TIME_INTERVAL
  omega

end UofGRoomBooker

open UofGRoomBooker in
/-- Claim C6: for every input slot map in which each slot's available rooms
form a set (no duplicate room ids), every interval of every `RoomSchedule`
built by `findRoomsWithSchedules` satisfies `from < to` with both bounds
inside the operating day (`from ≥ 9:00` and `to ≤ 22:00`; all times live on
the embedding's half-hour grid, so both bounds are half-hour-aligned by
construction), and the `freeTimes` sequence is pairwise non-overlapping in
ascending time order (`a.to ≤ b.from` for every earlier–later pair). -/
theorem built_schedule_invariants :
    ∀ (todayStart nowHour attendees date : ℤ)
      (query : ℤ → Except String (List Room)) (out : List Room),
      (∀ u rs, query u = .ok rs → (rs.map Room.id).Nodup) →
      (findRoomsWithSchedules todayStart nowHour query attendees date).1 = .ok out →
      ∀ r ∈ out, ∀ s, r.schedule = some s →
        (∀ iv ∈ s.freeTimes,
          iv.«from» < iv.«to» ∧ MIN_BOOKING_HOUR ≤ iv.«from» ∧ iv.«to» ≤ MAX_BOOKING_HOUR) ∧
        s.freeTimes.Pairwise (fun a b => a.«to» ≤ b.«from») := by
  intro ts nh a date query out hq hok
  unfold findRoomsWithSchedules at hok
  rcases hva : validateAttendees a with e | u
  · rw [hva] at hok
    cases hok
  · rw [hva] at hok
    dsimp only at hok
    rcases hvb : validateBookingTime ts nh ⟨date, MIN_BOOKING_HOUR, MIN_BOOKING_HOUR + 2⟩
      with ⟨res, d2⟩
    rw [hvb] at hok
    cases res with
    | error e => cases hok
    | ok u2 =>
      cases hcs : collectSlots query slotTimes [] with
      | error e => rw [hcs] at hok; cases hok
      | ok entries =>
        rw [hcs] at hok
        dsimp only at hok
        have hout : entries.map
            (fun e => { e.room with schedule := some ⟨d2, coalesce e.times⟩ }) = out := by
          cases hok
          rfl
        intro r hr s hs
        rw [← hout, List.mem_map] at hr
        obtain ⟨e, he, rfl⟩ := hr
        have hsi : (⟨d2, coalesce e.times⟩ : RoomSchedule) = s := by
          injection hs
        subst hsi
        obtain ⟨hne, hch, hbd⟩ := collectSlots_inv slotTimes query [] entries
          slotTimes_pairwise slotTimes_bounds hq (by intro e0 he0; cases he0) hcs e he
        show (∀ iv ∈ coalesce e.times, _) ∧ (coalesce e.times).Pairwise _
        cases hts : e.times with
        | nil => exact absurd hts hne
        | cons t0 rest =>
          rw [hts] at hch hbd
          rw [coalesce_cons]
          obtain ⟨hA, hB⟩ := coalesceGo_invariants rest t0 t0 le_rfl hch
            (hbd t0 (List.mem_cons_self _ _)).1 (fun x hx => (hbd x hx).2)
          refine ⟨?_, hB⟩
          intro iv hiv
          obtain ⟨_, h2, h3, h4⟩ := hA iv hiv
          exact ⟨h2, h3, h4⟩

open UofGRoomBooker in
/-- Claim C6 (witness): instantiation at the slot map reporting `roomA0`
free at every slot of the day, which builds the single schedule interval
9:00–22:00. -/
theorem built_schedule_invariants_witness :
    (∀ iv ∈ (⟨86400000, [⟨18, 44⟩]⟩ : RoomSchedule).freeTimes,
      iv.«from» < iv.«to» ∧ UofGRoomBooker.MIN_BOOKING_HOUR ≤ iv.«from» ∧
      iv.«to» ≤ UofGRoomBooker.MAX_BOOKING_HOUR) ∧
    (⟨86400000, [⟨18, 44⟩]⟩ : RoomSchedule).freeTimes.Pairwise
      (fun a b => a.«to» ≤ b.«from») :=
  built_schedule_invariants 0 24 4 86400000 constQuery
    [{ roomA0 with schedule := some ⟨86400000, [⟨18, 44⟩]⟩ }]
    (by intro u rs h; cases h; decide)
    (by decide)
    { roomA0 with schedule := some ⟨86400000, [⟨18, 44⟩]⟩ }
    (List.mem_singleton.mpr rfl)
    ⟨86400000, [⟨18, 44⟩]⟩ rfl
